import Mathlib

/-!
Verification of the anthropic-proxy translators.

Shallow embedding of the request translator
(src/conversion/request_converter.py), the non-streaming response
translator and the streaming translator
(src/conversion/response_converter.py), and the model-name rewrite
(src/app/models/schema.py), together with proofs of the claimed
properties.

Modelling conventions:
- Python dict/attribute lookups with defaults are modelled by Option with
  getD at the use site that the code defaults in.
- Randomly generated fallback identifiers (uuid-based) are modelled by the
  fixed placeholder strings "msg_generated" and "toolu_generated"; no
  claim depends on their value.
- Python str.strip() is modelled by pyStrip; both remove leading and
  trailing whitespace.
- Sampling parameters (temperature, top_p, top_k) are pass-through floats
  and are not part of any claim; they are omitted from the embedding.
-/

/-! ## String primitives

Python string operations are modelled on the character list of the
string, so that every definition evaluates by kernel reduction. -/

/-- Python str.strip(): drop whitespace from both ends. -/
def pyStrip (s : String) : String :=
  ⟨((s.data.dropWhile Char.isWhitespace).reverse.dropWhile
      Char.isWhitespace).reverse⟩

/-- Python str.rstrip() (the trimRight of the spec wording): drop
whitespace from the right end only. -/
def pyRStrip (s : String) : String :=
  ⟨(s.data.reverse.dropWhile Char.isWhitespace).reverse⟩

/-- Python s.startswith(p). -/
def strStarts (s p : String) : Bool :=
  p.data.isPrefixOf s.data

/-- Python s[n:] for character index n. -/
def strDropChars (s : String) (n : Nat) : String :=
  ⟨s.data.drop n⟩

def listContains (hay needle : List Char) : Bool :=
  match hay with
  | [] => needle.isEmpty
  | c :: rest => needle.isPrefixOf (c :: rest) || listContains rest needle

/-- Python needle in s.lower(), for an already-lowercase needle. -/
def hasSub (s needle : String) : Bool :=
  listContains (s.data.map Char.toLower) needle.data

/-! ## Tool-result content (schema ContentBlockToolResult.content) -/

/-- One element of a tool_result content list, as classified by
parse_tool_result_content: a dict with type == "text", a plain string, an
other dict that has a "text" key, an other dict (carried as its JSON
dump), or any other value (carried as its str() rendering). -/
inductive TRItem where
  | textBlock (text : String)
  | str (s : String)
  | dictWithText (text : String)
  | otherDict (jsonDump : String)
  | other (stringRepr : String)
deriving DecidableEq

/-- The content field of a tool_result block: None, a string, a list of
items, a dict with type == "text", an other dict, or any other value. -/
inductive TRContent where
  | null
  | str (s : String)
  | list (items : List TRItem)
  | dictText (text : String)
  | dictOther (jsonDump : String)
  | other (stringRepr : String)
deriving DecidableEq

/-- The string each list item contributes in parse_tool_result_content. -/
def trItemString : TRItem → String
  | .textBlock t => t
  | .str s => s
  | .dictWithText t => t
  | .otherDict j => j
  | .other r => r

/-- parse_tool_result_content from src/conversion/request_converter.py:
None becomes "No content provided"; a string is returned as is; a list is
joined element-by-element with a trailing newline each and then stripped;
a dict with type text yields its text; an other dict its JSON dump; other
values their str() rendering. -/
def parse_tool_result_content : TRContent → String
  | .null => "No content provided"
  | .str s => s
  | .list items =>
      pyStrip (items.foldl (fun acc it => acc ++ trItemString it ++ "\n") "")
  | .dictText t => t
  | .dictOther j => j
  | .other r => r

/-! ## Anthropic-side message blocks (src/app/models/schema.py) -/

/-- A content block of an inbound Anthropic message. Image sources,
tool_use inputs and JSON-schema objects are opaque to every claim and are
carried as strings. -/
inductive Block where
  | text (text : String)
  | image (source : String)
  | toolUse (id name input : String)
  | toolResult (tool_use_id : String) (content : TRContent)
deriving DecidableEq

def Block.isToolResult : Block → Bool
  | .toolResult _ _ => true
  | _ => false

/-- Message content: a plain string or a block list. -/
inductive MsgContent where
  | str (s : String)
  | blocks (bs : List Block)
deriving DecidableEq

structure AMessage where
  role : String
  content : MsgContent
deriving DecidableEq

/-! ## Outbound (LiteLLM) messages -/

/-- A processed outbound content block. A transliterated tool_result
carries the parsed content string that the code wraps as a single text
sub-block. -/
inductive LBlock where
  | text (text : String)
  | image (source : String)
  | toolUse (id name input : String)
  | toolResult (tool_use_id : String) (contentText : String)
deriving DecidableEq

inductive LContent where
  | str (s : String)
  | blocks (bs : List LBlock)
deriving DecidableEq

structure LMessage where
  role : String
  content : LContent
deriving DecidableEq

/-- The text accumulated for one user message that contains a tool_result
block: the code appends text + "\n" for text blocks and
"Tool result for {id}:\n" + parsed content + "\n" for tool_result blocks,
skipping other block kinds. -/
def flattenUserBlocks (bs : List Block) : String :=
  bs.foldl
    (fun acc b =>
      match b with
      | .text t => acc ++ t ++ "\n"
      | .toolResult tid c =>
          acc ++ "Tool result for " ++ tid ++ ":\n" ++
            parse_tool_result_content c ++ "\n"
      | _ => acc)
    ""

/-- Transliteration of a single block in the non-flattening branch of
convert_messages. -/
def processBlock : Block → LBlock
  | .text t => .text t
  | .image s => .image s
  | .toolUse i n inp => .toolUse i n inp
  | .toolResult tid c => .toolResult tid (parse_tool_result_content c)

/-- convert_messages, one inbound message: string content passes through;
a user message whose block list contains a tool_result is flattened to a
single stripped string; otherwise each block is transliterated. -/
def convertMessage (m : AMessage) : LMessage :=
  match m.content with
  | .str s => ⟨m.role, .str s⟩
  | .blocks bs =>
      if m.role = "user" ∧ bs.any Block.isToolResult then
        ⟨"user", .str (pyStrip (flattenUserBlocks bs))⟩
      else
        ⟨m.role, .blocks (bs.map processBlock)⟩

/-- convert_messages from src/conversion/request_converter.py: the loop
appends exactly one outbound message per inbound message. -/
def convert_messages (ms : List AMessage) : List LMessage :=
  ms.map convertMessage

/-! ## System prompt, tools, tool_choice -/

inductive SystemPrompt where
  | str (s : String)
  | blocks (texts : List String)
deriving DecidableEq

/-- convert_system_prompt: a falsy prompt (absent, empty string, empty
list) yields no message; a string passes through; a block list is
concatenated with double newlines and stripped, yielding a message only
if non-empty. -/
def convert_system_prompt : Option SystemPrompt → Option LMessage
  | none => none
  | some (.str s) => if s = "" then none else some ⟨"system", .str s⟩
  | some (.blocks ts) =>
      let t := ts.foldl (fun acc b => acc ++ b ++ "\n\n") ""
      if t = "" then none else some ⟨"system", .str (pyStrip t)⟩

structure ATool where
  name : String
  description : Option String
  input_schema : String
deriving DecidableEq

structure OTool where
  name : String
  description : Option String
  parameters : String
deriving DecidableEq

/-- convert_tools: falsy input (absent or empty list) yields None;
otherwise every tool is wrapped as a function tool, name and schema
unchanged. -/
def convert_tools : Option (List ATool) → Option (List OTool)
  | none => none
  | some [] => none
  | some ts => some (ts.map fun t => ⟨t.name, t.description, t.input_schema⟩)

/-- The inbound tool_choice value (a free-form dict in the schema): the
empty dict (falsy in Python), or a dict described by its optional "type"
and "name" entries. -/
inductive ToolChoiceVal where
  | empty
  | dict (type : Option String) (name : Option String)
deriving DecidableEq

inductive OToolChoice where
  | str (s : String)
  | function (name : String)
deriving DecidableEq

/-- convert_tool_choice: falsy input yields None; type auto and any map
to the same strings; type tool with a name maps to a function selector;
every other non-empty dict maps to "auto". -/
def convert_tool_choice : Option ToolChoiceVal → Option OToolChoice
  | none => none
  | some .empty => none
  | some (.dict ty nm) =>
      if ty = some "auto" then some (.str "auto")
      else if ty = some "any" then some (.str "any")
      else if ty = some "tool" ∧ nm.isSome then
        some (.function (nm.getD ""))
      else some (.str "auto")

/-! ## The request translator (convert_anthropic_to_litellm) -/

structure AnthropicRequest where
  model : String
  max_tokens : Nat
  messages : List AMessage
  system : Option SystemPrompt
  tools : Option (List ATool)
  tool_choice : Option ToolChoiceVal
deriving DecidableEq

structure LiteLLMRequest where
  model : String
  messages : List LMessage
  max_tokens : Nat
  tools : Option (List OTool)
  tool_choice : Option OToolChoice
deriving DecidableEq

/-- convert_anthropic_to_litellm from src/conversion/request_converter.py
(limit is config.max_tokens_limit). max_tokens is capped only when the
model string starts with "openai/". -/
def convert_anthropic_to_litellm (limit : Nat) (r : AnthropicRequest) :
    LiteLLMRequest :=
  let sys := convert_system_prompt r.system
  { model := r.model
    messages := (match sys with | some m => [m] | none => []) ++
      convert_messages r.messages
    max_tokens :=
      if strStarts r.model "openai/" then min r.max_tokens limit
      else r.max_tokens
    tools := convert_tools r.tools
    tool_choice := convert_tool_choice r.tool_choice }

/-! ## Model-name rewriting (src/app/models/schema.py, _validate_model) -/

structure ModelConfig where
  preferred_provider : String
  big_model : String
  small_model : String
deriving DecidableEq

/-- _validate_model: the nvidia branch maps haiku and sonnet without
stripping any prefix and prepends "nvidia_nim/"; the openai branch strips
a leading "anthropic/", maps haiku and sonnet, and prepends "openai/";
every other provider only prepends "anthropic/". -/
def validate_model (cfg : ModelConfig) (v : String) : String :=
  if cfg.preferred_provider = "nvidia" then
    if hasSub v "haiku" then "nvidia_nim/" ++ cfg.small_model
    else if hasSub v "sonnet" then "nvidia_nim/" ++ cfg.big_model
    else if strStarts v "nvidia_nim/" then v
    else "nvidia_nim/" ++ v
  else if cfg.preferred_provider = "openai" then
    let v1 := if strStarts v "anthropic/" then strDropChars v 10 else v
    if hasSub v1 "haiku" then "openai/" ++ cfg.small_model
    else if hasSub v1 "sonnet" then "openai/" ++ cfg.big_model
    else if strStarts v1 "openai/" then v1
    else "openai/" ++ v1
  else
    if strStarts v "anthropic/" then v else "anthropic/" ++ v

/-- Modelled from the spec wording of claim C8: strip a leading
"anthropic/", then map haiku to provider/SMALL_MODEL, sonnet to
provider/BIG_MODEL, and otherwise prepend the provider prefix unless
already present. -/
def claimRewrite (provider small big : String) (v : String) : String :=
  let v1 := if strStarts v "anthropic/" then strDropChars v 10 else v
  if hasSub v1 "haiku" then provider ++ "/" ++ small
  else if hasSub v1 "sonnet" then provider ++ "/" ++ big
  else if strStarts v1 (provider ++ "/") then v1
  else provider ++ "/" ++ v1

/-- The nvidia branch of _validate_model, stated on its own: haiku and
sonnet are mapped without stripping "anthropic/", and the prefix used is
"nvidia_nim/". -/
def nvidiaRewrite (small big : String) (v : String) : String :=
  if hasSub v "haiku" then "nvidia_nim/" ++ small
  else if hasSub v "sonnet" then "nvidia_nim/" ++ big
  else if strStarts v "nvidia_nim/" then v
  else "nvidia_nim/" ++ v

/-! ## Upstream completion (non-streaming response translator,
src/conversion/response_converter.py) -/

/-- One upstream tool call: id, function name and the raw arguments
string. JSON parsing of the arguments (and the raw-wrapping fallback) is
not inspected by any claim; the arguments are carried opaquely. -/
structure OToolCall where
  id : Option String
  name : Option String
  arguments : Option String
deriving DecidableEq

/-- choices[0].message: content may be null, tool_calls may be absent.
An absent content key defaults to the empty string at extraction; that
case is modelled by constructing content as some "". -/
structure UMessage where
  content : Option String
  tool_calls : Option (List OToolCall)
deriving DecidableEq

/-- One element of the upstream choices list. An absent finish_reason key
defaults to "stop" at extraction; that case is modelled by constructing
finish_reason as some "stop", while none models an explicit null. -/
structure UChoice where
  message : Option UMessage
  finish_reason : Option String
deriving DecidableEq

structure UsageInfo where
  prompt_tokens : Nat
  completion_tokens : Nat
deriving DecidableEq

structure UCompletion where
  id : Option String
  choices : List UChoice
  usage : UsageInfo
deriving DecidableEq

/-- convert_stop_reason: stop, length and tool_calls map to end_turn,
max_tokens and tool_use; everything else (null included) maps to
end_turn. -/
def convert_stop_reason : Option String → String
  | some "stop" => "end_turn"
  | some "length" => "max_tokens"
  | some "tool_calls" => "tool_use"
  | _ => "end_turn"

structure ExtractedData where
  content_text : Option String
  tool_calls : Option (List OToolCall)
  finish_reason : Option String
  usage : UsageInfo
  id : Option String
deriving DecidableEq

/-- extract_response_data: everything is read from choices[0]; an empty
choices list degrades to an empty message with finish_reason "stop". -/
def extract_response_data (r : UCompletion) : ExtractedData :=
  match r.choices.head? with
  | some c =>
      { content_text :=
          match c.message with
          | some m => m.content
          | none => some ""
        tool_calls :=
          match c.message with
          | some m => m.tool_calls
          | none => none
        finish_reason := c.finish_reason
        usage := r.usage
        id := r.id }
  | none =>
      { content_text := some ""
        tool_calls := none
        finish_reason := some "stop"
        usage := r.usage
        id := r.id }

/-- A content block of the produced MessagesResponse. The tool_use input
carries the raw arguments string opaquely; the non-Claude text summary
carries the same string in place of the pretty-printed JSON. -/
inductive RBlock where
  | text (text : String)
  | toolUse (id name input : String)
deriving DecidableEq

/-- convert_tool_calls_to_content: falsy tool_calls yield no blocks; for
a Claude target each call becomes a tool_use block; otherwise all calls
are rendered into one text block headed "Tool usage:". -/
def convert_tool_calls_to_content (is_claude : Bool) :
    Option (List OToolCall) → List RBlock
  | none => []
  | some [] => []
  | some tcs =>
      if is_claude then
        tcs.map fun tc =>
          .toolUse (tc.id.getD "toolu_generated") (tc.name.getD "")
            (tc.arguments.getD "\x7b\x7d")
      else
        [.text (tcs.foldl
          (fun acc tc =>
            acc ++ "Tool: " ++ tc.name.getD "" ++ "\nArguments: " ++
              tc.arguments.getD "\x7b\x7d" ++ "\n\n")
          "\n\nTool usage:\n")]

structure AMessagesResponse where
  id : String
  model : String
  content : List RBlock
  stop_reason : String
  stop_sequence : Option String
  input_tokens : Nat
  output_tokens : Nat
deriving DecidableEq

/-- convert_openai_to_anthropic (happy path): strips the provider prefix
from the original model to decide Claude targeting, builds the content
blocks, maps the stop reason, sets stop_sequence to null and copies the
token counts. -/
def convert_openai_to_anthropic (r : UCompletion) (reqModel : String) :
    AMessagesResponse :=
  let clean :=
    if strStarts reqModel "anthropic/" then strDropChars reqModel 10
    else if strStarts reqModel "openai/" then strDropChars reqModel 7
    else reqModel
  let is_claude := strStarts clean "claude-"
  let d := extract_response_data r
  let content0 : List RBlock :=
    match d.content_text with
    | some t => if t = "" then [] else [.text t]
    | none => []
  let toolContent := convert_tool_calls_to_content is_claude d.tool_calls
  let content1 :=
    if toolContent.isEmpty then content0
    else if is_claude then content0 ++ toolContent
    else
      match content0, toolContent with
      | .text t :: rest, .text tt :: _ => .text (t ++ tt) :: rest
      | _, _ => content0 ++ toolContent
  let content := if content1.isEmpty then [.text ""] else content1
  { id := d.id.getD "msg_generated"
    model := reqModel
    content := content
    stop_reason := convert_stop_reason d.finish_reason
    stop_sequence := none
    input_tokens := d.usage.prompt_tokens
    output_tokens := d.usage.completion_tokens }

/-- The degraded response built by the exception handler of
convert_openai_to_anthropic: a single text block carrying the error
message, stop_reason end_turn, default (null) stop_sequence and zero
usage. -/
def conversion_error_response (reqModel emsg : String) :
    AMessagesResponse :=
  { id := "msg_generated"
    model := reqModel
    content := [.text ("Error converting response: " ++ emsg ++
      ". Please check server logs.")]
    stop_reason := "end_turn"
    stop_sequence := none
    input_tokens := 0
    output_tokens := 0 }

/-! ## The streaming translator (handle_streaming,
src/conversion/response_converter.py) -/

/-- One entry of a delta tool_calls list: the upstream index (defaulting
to 0 when absent), optional id and function name, and the raw arguments
chunk. A dict-valued arguments chunk is modelled by its JSON dump, which
is what the code emits for it. -/
structure TCDelta where
  index : Option Nat
  id : Option String
  name : Option String
  arguments : Option String
deriving DecidableEq

structure ChunkDelta where
  content : Option String
  tool_calls : Option (List TCDelta)
deriving DecidableEq

structure ChunkChoice where
  delta : ChunkDelta
  finish_reason : Option String
deriving DecidableEq

structure ChunkUsage where
  prompt_tokens : Option Nat
  completion_tokens : Option Nat
deriving DecidableEq

/-- An upstream streaming chunk. The malformed constructor models a
chunk whose choices processing raises (for example choices = None): the
per-chunk exception handler logs and continues, after the usage update
that precedes the failing access. -/
inductive Chunk where
  | chunk (usage : Option ChunkUsage) (choices : List ChunkChoice)
  | malformed (usage : Option ChunkUsage)
deriving DecidableEq

/-- The SSE events the translator emits. blockStartText is the
content_block_start of the text block at index 0; textDelta is a
content_block_delta at index 0; done is the final data sentinel. -/
inductive SSE where
  | messageStart
  | blockStartText
  | ping
  | textDelta (text : String)
  | blockStartTool (index : Nat) (id name : String)
  | inputJsonDelta (index : Nat) (partialJson : String)
  | blockStop (index : Nat)
  | messageDelta (stopReason : String) (outputTokens : Nat)
  | messageStop
  | done
deriving DecidableEq

/-- The local variables of handle_streaming that persist across chunks. -/
structure StreamState where
  tool_index : Option Nat
  last_tool_index : Nat
  accumulated_text : String
  text_sent : Bool
  text_block_closed : Bool
  input_tokens : Nat
  output_tokens : Nat
  has_sent_stop_reason : Bool
deriving DecidableEq

def initState : StreamState :=
  { tool_index := none, last_tool_index := 0, accumulated_text := ""
    text_sent := false, text_block_closed := false, input_tokens := 0
    output_tokens := 0, has_sent_stop_reason := false }

/-- The result of one processing step: the updated state, the emitted
events, the (upstream index, Anthropic block index) pairs recorded at
each tool content_block_start, and whether the terminal events were
emitted (the code returns from the generator there). -/
structure StepResult where
  state : StreamState
  events : List SSE
  opens : List (Nat × Nat)
  terminated : Bool
deriving DecidableEq

/-- The usage update at the top of the chunk loop. -/
def updateUsage (st : StreamState) : Option ChunkUsage → StreamState
  | none => st
  | some u =>
      { st with
        input_tokens := u.prompt_tokens.getD st.input_tokens
        output_tokens := u.completion_tokens.getD st.output_tokens }

/-- Closing the text block when the first tool_calls delta arrives and no
tool is active yet: if text was already streamed, stop block 0; else if
text was buffered but never streamed, flush it and stop block 0; else
stop block 0 if it is still open. -/
def closeTextForTools (st : StreamState) : StreamState × List SSE :=
  if st.tool_index.isSome then (st, [])
  else if st.text_sent && !st.text_block_closed then
    ({ st with text_block_closed := true }, [.blockStop 0])
  else if decide (st.accumulated_text ≠ "") && !st.text_sent &&
      !st.text_block_closed then
    ({ st with text_sent := true, text_block_closed := true },
     [.textDelta st.accumulated_text, .blockStop 0])
  else if !st.text_block_closed then
    ({ st with text_block_closed := true }, [.blockStop 0])
  else (st, [])

/-- One entry of the tool_calls loop: open a new Anthropic block when the
upstream index differs from the tracked one (or none is tracked yet),
then emit the arguments chunk, if truthy, at the current Anthropic tool
index. -/
def processToolCall (st : StreamState) (tc : TCDelta) : StepResult :=
  let current_index := tc.index.getD 0
  let opened :=
    st.tool_index = none ∨ st.tool_index ≠ some current_index
  let (st1, evs1, opens1) :=
    if opened then
      let newLast := st.last_tool_index + 1
      ({ st with
           tool_index := some current_index
           last_tool_index := newLast },
       [SSE.blockStartTool newLast (tc.id.getD "toolu_generated")
          (tc.name.getD "")],
       [(current_index, newLast)])
    else (st, [], [])
  let args := tc.arguments.getD ""
  if args = "" then ⟨st1, evs1, opens1, false⟩
  else ⟨st1, evs1 ++ [SSE.inputJsonDelta st1.last_tool_index args],
    opens1, false⟩

def processToolCalls (st : StreamState) : List TCDelta → StepResult
  | [] => ⟨st, [], [], false⟩
  | tc :: rest =>
      let r1 := processToolCall st tc
      let r2 := processToolCalls r1.state rest
      ⟨r2.state, r1.events ++ r2.events, r1.opens ++ r2.opens, false⟩

/-- The content_block_stop events for the tool blocks 1..n, in order:
the translation of for i in range(1, last_tool_index + 1). -/
def rangeStops (n : Nat) : List SSE :=
  (List.range n).map (fun k => SSE.blockStop (k + 1))

/-- The block-closing prefix of a terminal emission: the tool stops
1..last_tool_index when a tool was opened, then (when the text block is
still open) the given flushed text deltas followed by the stop of
block 0. -/
def closeSeg (st : StreamState) (extra : List SSE) : List SSE :=
  (if st.tool_index.isSome then rangeStops st.last_tool_index else []) ++
  (if !st.text_block_closed then extra ++ [SSE.blockStop 0] else [])

/-- The terminal emission when a truthy finish_reason is seen: close all
tool blocks (when any tool was opened), flush and close the text block if
still open, then message_delta, message_stop and the done sentinel. -/
def finishEvents (st : StreamState) (fr : String) : List SSE :=
  closeSeg st
    (if decide (st.accumulated_text ≠ "") && !st.text_sent then
      [SSE.textDelta st.accumulated_text]
    else []) ++
  [SSE.messageDelta (convert_stop_reason (some fr)) st.output_tokens,
   SSE.messageStop, SSE.done]

/-- The text-delta phase of one chunk: a truthy content string is always
accumulated, and is streamed as a content_block_delta on block 0 only
while no tool is active and the text block is open. -/
def textStep (st : StreamState) (content : Option String) :
    StreamState × List SSE :=
  match content with
  | some t =>
      if t = "" then (st, [])
      else
        let st1 := { st with
          accumulated_text := st.accumulated_text ++ t }
        if st1.tool_index = none ∧ st1.text_block_closed = false then
          ({ st1 with text_sent := true }, [SSE.textDelta t])
        else (st1, [])
  | none => (st, [])

/-- The tool_calls phase of one chunk: a truthy tool_calls list first
closes the text block when no tool is active, then processes each entry
in list order. -/
def toolStep (st : StreamState) (tool_calls : Option (List TCDelta)) :
    StepResult :=
  match tool_calls with
  | some tcs =>
      if tcs.isEmpty then ⟨st, [], [], false⟩
      else
        let (st2, evs2) := closeTextForTools st
        let r := processToolCalls st2 tcs
        ⟨r.state, evs2 ++ r.events, r.opens, false⟩
  | none => ⟨st, [], [], false⟩

/-- The finish_reason phase of one chunk: a truthy finish_reason, when
the terminal events were not sent yet, emits them and returns. -/
def finishStep (st : StreamState) (fr : Option String) : StepResult :=
  match fr with
  | some f =>
      if f ≠ "" ∧ st.has_sent_stop_reason = false then
        ⟨{ st with has_sent_stop_reason := true }, finishEvents st f, [],
         true⟩
      else ⟨st, [], [], false⟩
  | none => ⟨st, [], [], false⟩

/-- Processing of chunk.choices[0]: text delta first, then the tool_calls
list, then the finish_reason check. -/
def processChoice (st : StreamState) (c : ChunkChoice) : StepResult :=
  let (stA, evsA) := textStep st c.delta.content
  let rB := toolStep stA c.delta.tool_calls
  let rC := finishStep rB.state c.finish_reason
  ⟨rC.state, evsA ++ rB.events ++ rC.events, rB.opens ++ rC.opens,
   rC.terminated⟩

/-- One iteration of the chunk loop: update usage, then process
choices[0] if present; a malformed chunk is logged and skipped by the
per-chunk exception handler. -/
def processChunk (st : StreamState) : Chunk → StepResult
  | .malformed u => ⟨updateUsage st u, [], [], false⟩
  | .chunk u choices =>
      let st1 := updateUsage st u
      match choices.head? with
      | none => ⟨st1, [], [], false⟩
      | some c => processChoice st1 c

/-- The chunk loop: the terminal return at a truthy finish_reason stops
consumption of the remaining chunks. -/
def runChunks (st : StreamState) : List Chunk → StepResult
  | [] => ⟨st, [], [], false⟩
  | c :: cs =>
      let r1 := processChunk st c
      if r1.terminated then ⟨r1.state, r1.events, r1.opens, true⟩
      else
        let r2 := runChunks r1.state cs
        ⟨r2.state, r1.events ++ r2.events, r1.opens ++ r2.opens,
         r2.terminated⟩

/-- The initial emission: message_start, the text content_block_start at
index 0, and a ping. -/
def initEvents : List SSE := [.messageStart, .blockStartText, .ping]

/-- The flush when the upstream ends without a truthy finish_reason:
close tool blocks and the text block (without flushing buffered text),
then message_delta end_turn, message_stop and done. -/
def endPathEvents (st : StreamState) : List SSE :=
  closeSeg st [] ++
  [SSE.messageDelta "end_turn" st.output_tokens, SSE.messageStop,
   SSE.done]

/-- The terminal emitted by the outer exception handler. -/
def errorEvents : List SSE :=
  [.messageDelta "error" 0, .messageStop, .done]

/-- handle_streaming: the upstream generator yields the given chunks and
then either completes normally or raises (upstreamRaises). A raise is
observed only if the loop did not already return at a finish_reason. -/
def handle_streaming (chunks : List Chunk) (upstreamRaises : Bool) :
    List SSE :=
  let r := runChunks initState chunks
  initEvents ++ r.events ++
    (if r.terminated then []
     else if upstreamRaises then errorEvents
     else if r.state.has_sent_stop_reason then []
     else endPathEvents r.state)

/-- The (upstream index, Anthropic block index) pairs recorded at each
tool content_block_start of a stream. -/
def streamToolOpens (chunks : List Chunk) : List (Nat × Nat) :=
  (runChunks initState chunks).opens

/-- Whether an event is a content_block_start carrying index i. -/
def startIndexHits (i : Nat) : SSE → Bool
  | .blockStartText => decide (i = 0)
  | .blockStartTool j _ _ => decide (i = j)
  | _ => false

/-- Whether an event is a content_block_stop carrying index i. -/
def stopIndexHits (i : Nat) : SSE → Bool
  | .blockStop j => decide (i = j)
  | _ => false

/-- How many content_block_start events with index i a stream holds. -/
def countStart (evs : List SSE) (i : Nat) : Nat :=
  evs.countP (startIndexHits i)

/-- How many content_block_stop events with index i a stream holds. -/
def countStop (evs : List SSE) (i : Nat) : Nat :=
  evs.countP (stopIndexHits i)

/-- Whether an event is a pure delta or ping: no block boundary, no
terminal. -/
def neutralEv : SSE → Bool
  | .textDelta _ => true
  | .inputJsonDelta _ _ => true
  | .ping => true
  | _ => false

/-- Whether an event is one of the three terminal kinds. -/
def isTerminalEv : SSE → Bool
  | .messageDelta _ _ => true
  | .messageStop => true
  | .done => true
  | _ => false

/-- The Anthropic indices of the tool content_block_start events, in
emission order. -/
def toolStartIndices (evs : List SSE) : List Nat :=
  evs.filterMap (fun e =>
    match e with
    | .blockStartTool i _ _ => some i
    | _ => none)

/-- Whether a chunk carries a truthy finish_reason on choices[0]. -/
def chunkFinishTruthy : Chunk → Bool
  | .chunk _ (c :: _) =>
      match c.finish_reason with
      | some s => s != ""
      | none => false
  | _ => false

/-- Whether a chunk carries a non-null finish_reason on choices[0]. -/
def chunkHasFinish : Chunk → Bool
  | .chunk _ (c :: _) => c.finish_reason.isSome
  | _ => false

def endsWithFinish (chunks : List Chunk) : Bool :=
  match chunks.getLast? with
  | some c => chunkHasFinish c
  | none => false

/-! ## Claim-side definitions and concrete inputs -/

/-- The string one block contributes to the flattened user message, per
the spec wording: text blocks contribute their text plus a newline,
tool_result blocks contribute the header, the stringified content and a
newline; other blocks contribute nothing. -/
def blockContrib : Block → String
  | .text t => t ++ "\n"
  | .toolResult tid c =>
      "Tool result for " ++ tid ++ ":\n" ++
        parse_tool_result_content c ++ "\n"
  | _ => ""

/-- The concatenation, in block order, of the per-block contributions. -/
def claimConcat : List Block → String
  | [] => ""
  | b :: bs => blockContrib b ++ claimConcat bs

def c4blocks : List Block := [.text " x", .toolResult "t1" (.str "4")]

def c4msg : AMessage := ⟨"user", .blocks c4blocks⟩

def reqC3 : AnthropicRequest :=
  { model := "anthropic/claude-3-opus", max_tokens := 100000
    messages := [], system := none, tools := none, tool_choice := none }

def reqC3b : AnthropicRequest :=
  { model := "openai/gpt-4o", max_tokens := 100000
    messages := [], system := none, tools := none, tool_choice := none }

def reqC6 : AnthropicRequest :=
  { model := "openai/gpt-4o", max_tokens := 100, messages := []
    system := none, tools := some [⟨"calculator", none, "schema"⟩]
    tool_choice := none }

/-- Modelled from the amended claim C6: auto, any and tool-with-name map
as claimed; every other non-empty tool_choice dict maps to "auto"
regardless of the tools field; an absent or empty tool_choice is omitted
regardless of the tools field. -/
def amendedToolChoice : Option ToolChoiceVal → Option OToolChoice
  | none => none
  | some .empty => none
  | some (.dict ty nm) =>
      if ty = some "auto" then some (.str "auto")
      else if ty = some "any" then some (.str "any")
      else if ty = some "tool" then
        match nm with
        | some n => some (.function n)
        | none => some (.str "auto")
      else some (.str "auto")

def cfgAnthropic : ModelConfig := ⟨"anthropic", "gpt-4o", "gpt-4o-mini"⟩

/-- A chunk with its choices list truncated to the first element. -/
def truncChunk : Chunk → Chunk
  | .chunk u cs => .chunk u (cs.take 1)
  | .malformed u => .malformed u

/-- Upstream tool_call deltas with indices 0, 1 and again 0, then a
finish chunk. -/
def c5chunks : List Chunk :=
  [ .chunk none [⟨⟨none, some [⟨some 0, some "a", some "f", none⟩]⟩, none⟩],
    .chunk none [⟨⟨none, some [⟨some 1, some "b", some "g", none⟩]⟩, none⟩],
    .chunk none [⟨⟨none, some [⟨some 0, some "c", some "h", none⟩]⟩, none⟩],
    .chunk none [⟨⟨none, none⟩, some "tool_calls"⟩] ]

/-- The invariant a non-terminating processing segment maintains,
relating the input state st to the produced StepResult r: the loop flags
are carried, the tool block counter only grows, the emitted events
contain no terminal event and no content_block_start of index 0, the
tool content_block_start events carry exactly the indices
st.last_tool_index+1 .. r.state.last_tool_index, no tool
content_block_stop is emitted, and a content_block_stop of index 0 is
emitted exactly when the segment closes the text block. -/
def StepSpec (st : StreamState) (r : StepResult) : Prop :=
  r.terminated = false ∧
  r.state.has_sent_stop_reason = st.has_sent_stop_reason ∧
  st.last_tool_index ≤ r.state.last_tool_index ∧
  ((st.tool_index = none ↔ st.last_tool_index = 0) →
    (r.state.tool_index = none ↔ r.state.last_tool_index = 0)) ∧
  countStart r.events 0 = 0 ∧
  (∀ i, countStart r.events (i + 1) =
    if st.last_tool_index < i + 1 ∧ i + 1 ≤ r.state.last_tool_index then 1
    else 0) ∧
  (∀ i, countStop r.events (i + 1) = 0) ∧
  (countStop r.events 0 +
      (if r.state.text_block_closed then 0 else 1) =
    (if st.text_block_closed then 0 else 1)) ∧
  r.opens.map Prod.snd =
    List.range' (st.last_tool_index + 1)
      (r.state.last_tool_index - st.last_tool_index) ∧
  toolStartIndices r.events =
    List.range' (st.last_tool_index + 1)
      (r.state.last_tool_index - st.last_tool_index) ∧
  (∀ e ∈ r.events, isTerminalEv e = false)

/-- The shape of a terminating processing segment: every opened block
index receives exactly one content_block_stop (index 0 exactly when the
text block was still open at segment entry), and the events end with
message_delta, message_stop and the done sentinel, with no terminal
event before them. -/
def TermSpec (st : StreamState) (r : StepResult) : Prop :=
  r.terminated = true ∧
  st.last_tool_index ≤ r.state.last_tool_index ∧
  countStart r.events 0 = 0 ∧
  (∀ i, countStart r.events (i + 1) =
    if st.last_tool_index < i + 1 ∧ i + 1 ≤ r.state.last_tool_index then 1
    else 0) ∧
  ((st.tool_index = none ↔ st.last_tool_index = 0) →
    (∀ i, countStop r.events (i + 1) =
      if i + 1 ≤ r.state.last_tool_index then 1 else 0)) ∧
  countStop r.events 0 = (if st.text_block_closed then 0 else 1) ∧
  r.opens.map Prod.snd =
    List.range' (st.last_tool_index + 1)
      (r.state.last_tool_index - st.last_tool_index) ∧
  toolStartIndices r.events =
    List.range' (st.last_tool_index + 1)
      (r.state.last_tool_index - st.last_tool_index) ∧
  (∃ pre rr tt, r.events =
      pre ++ [SSE.messageDelta rr tt, SSE.messageStop, SSE.done] ∧
    ∀ e ∈ pre, isTerminalEv e = false)

/-- A single-chunk stream whose last chunk carries a finish_reason:
some text, one tool call, then the finish. -/
def c1demo : List Chunk :=
  [ .chunk none [⟨⟨some "Sure. ", none⟩, none⟩],
    .chunk none
      [⟨⟨none, some [⟨some 0, some "t1", some "calculator", none⟩]⟩,
        none⟩],
    .chunk none
      [⟨⟨none, some [⟨some 0, none, none, some "argA"⟩]⟩, none⟩],
    .chunk none [⟨⟨none, none⟩, some "tool_calls"⟩] ]

/-! ## Shared lemmas -/

theorem flattenUserBlocks_eq_claimConcat (bs : List Block) :
    flattenUserBlocks bs = claimConcat bs := by
  suffices h : ∀ acc : String,
      bs.foldl
        (fun acc b =>
          match b with
          | .text t => acc ++ t ++ "\n"
          | .toolResult tid c =>
              acc ++ "Tool result for " ++ tid ++ ":\n" ++
                parse_tool_result_content c ++ "\n"
          | _ => acc)
        acc = acc ++ claimConcat bs by
    rw [flattenUserBlocks, h "", String.empty_append]
  induction bs with
  | nil => intro acc; simp [claimConcat, String.append_empty]
  | cons b rest ih =>
      intro acc
      rw [List.foldl_cons, ih]
      cases b <;>
        simp [claimConcat, blockContrib, String.append_assoc,
          String.empty_append]

theorem processChunk_trunc (st : StreamState) (c : Chunk) :
    processChunk st (truncChunk c) = processChunk st c := by
  rcases c with ⟨u, choices⟩ | u
  · rcases choices with _ | ⟨c0, rest⟩ <;> rfl
  · rfl

theorem runChunks_trunc (st : StreamState) (chunks : List Chunk) :
    runChunks st (chunks.map truncChunk) = runChunks st chunks := by
  induction chunks generalizing st with
  | nil => rfl
  | cons c cs ih => simp [runChunks, processChunk_trunc, ih]

theorem convert_stop_reason_cases (o : Option String) :
    convert_stop_reason o = "end_turn" ∨ convert_stop_reason o = "max_tokens" ∨
      convert_stop_reason o = "tool_use" := by
  unfold convert_stop_reason
  split <;> simp

/-! ## Claims -/

/-- C3 counterexample: for the model string "anthropic/claude-3-opus"
(the anthropic provider path) the request translator forwards
max_tokens 100000 unclamped, above the default limit 16384. -/
theorem c3_counterexample :
    16384 < (convert_anthropic_to_litellm 16384 reqC3).max_tokens := by
  decide

/-- C3 (amended): the request translator clamps max_tokens to the
configured limit exactly when the model string starts with "openai/";
for every other model string max_tokens passes through unchanged. -/
theorem c3_amended (limit : Nat) (r : AnthropicRequest) :
    (strStarts r.model "openai/" = true →
      (convert_anthropic_to_litellm limit r).max_tokens ≤ limit ∧
      (convert_anthropic_to_litellm limit r).max_tokens ≤ r.max_tokens) ∧
    (strStarts r.model "openai/" = false →
      (convert_anthropic_to_litellm limit r).max_tokens = r.max_tokens) := by
  have hmax : (convert_anthropic_to_litellm limit r).max_tokens =
      if strStarts r.model "openai/" then min r.max_tokens limit
      else r.max_tokens := rfl
  constructor
  · intro h
    rw [hmax, if_pos h]
    exact ⟨Nat.min_le_right _ _, Nat.min_le_left _ _⟩
  · intro h
    rw [hmax, if_neg (by simp [h])]

/-- C3 witness: the clamp holds for an openai-prefixed request and the
pass-through holds for an anthropic-prefixed request. -/
theorem c3_witness :
    (convert_anthropic_to_litellm 16384 reqC3b).max_tokens ≤ 16384 ∧
    (convert_anthropic_to_litellm 16384 reqC3).max_tokens = 100000 :=
  ⟨((c3_amended 16384 reqC3b).1 (by decide)).1,
   (c3_amended 16384 reqC3).2 (by decide)⟩

/-- C4 counterexample: on a user message whose first text block starts
with a space, the code strips both ends (Python strip) while the claim
right-trims, so the claimed output string differs from the produced
one. -/
theorem c4_counterexample :
    convert_messages [c4msg] ≠
      [⟨"user", .str (pyRStrip (claimConcat c4blocks))⟩] := by
  decide

/-- C4 (amended): for every inbound user message whose content is a
block list containing a tool_result block, the translator emits exactly
one outbound user message at the same position, whose content is the
single string obtained by concatenating the per-block contributions in
block order and trimming both ends (Python strip, not a right trim). -/
theorem c4_amended (ms : List AMessage) (i : Nat) (bs : List Block)
    (hrole : ms[i]?.map AMessage.role = some "user")
    (hcont : ms[i]?.map AMessage.content = some (.blocks bs))
    (htr : bs.any Block.isToolResult = true) :
    (convert_messages ms).length = ms.length ∧
    (convert_messages ms)[i]? =
      some ⟨"user", .str (pyStrip (claimConcat bs))⟩ := by
  refine ⟨by simp [convert_messages], ?_⟩
  rcases h : ms[i]? with _ | m
  · rw [h] at hrole; simp at hrole
  · rw [h] at hrole hcont
    simp only [Option.map] at hrole hcont
    rw [Option.some_inj] at hrole hcont
    rw [convert_messages, List.getElem?_map, h]
    simp [convertMessage, hcont, hrole, htr,
      flattenUserBlocks_eq_claimConcat]

/-- C4 witness: the amended claim evaluated on a concrete message. -/
theorem c4_witness :
    (convert_messages [c4msg]).length = 1 ∧
    (convert_messages [c4msg])[0]? =
      some ⟨"user", .str (pyStrip (claimConcat c4blocks))⟩ :=
  c4_amended [c4msg] 0 c4blocks (by decide) (by decide) (by decide)

/-- C6 counterexample: a request with tools present and tool_choice
absent forwards no tool_choice field at all, where the claim requires
"auto". -/
theorem c6_counterexample :
    (convert_anthropic_to_litellm 16384 reqC6).tools ≠ none ∧
    (convert_anthropic_to_litellm 16384 reqC6).tool_choice = none := by
  decide

/-- C6 (amended): the forwarded tool_choice is a function of the inbound
tool_choice alone: auto, any and tool-with-name map as claimed, every
other non-empty dict maps to "auto" even without tools, and an absent or
empty tool_choice is omitted even when tools are present. -/
theorem c6_amended (limit : Nat) (r : AnthropicRequest) :
    (convert_anthropic_to_litellm limit r).tool_choice =
      amendedToolChoice r.tool_choice := by
  show convert_tool_choice r.tool_choice = amendedToolChoice r.tool_choice
  rcases r.tool_choice with _ | tc
  · rfl
  rcases tc with _ | ⟨ty, nm⟩
  · rfl
  · rcases nm with _ | n <;>
      by_cases h1 : ty = some "auto" <;>
      by_cases h2 : ty = some "any" <;>
      by_cases h3 : ty = some "tool" <;>
      simp [convert_tool_choice, amendedToolChoice, h1, h2, h3]

/-- C8 counterexample: with the anthropic provider, an inbound haiku
model name is only prefixed, not mapped to the small model as the
claimed algorithm requires. -/
theorem c8_counterexample :
    validate_model cfgAnthropic "claude-3-haiku-20240307" ≠
      claimRewrite "anthropic" cfgAnthropic.small_model
        cfgAnthropic.big_model "claude-3-haiku-20240307" := by
  decide

/-- C8 (amended): the claimed rewrite algorithm is implemented exactly
for the openai provider; the nvidia provider applies the haiku and
sonnet mapping without stripping "anthropic/" and uses the prefix
"nvidia_nim/"; every other provider only prepends "anthropic/" and never
maps haiku or sonnet. -/
theorem c8_amended :
    (∀ (cfg : ModelConfig) (v : String), cfg.preferred_provider = "openai" →
      validate_model cfg v =
        claimRewrite "openai" cfg.small_model cfg.big_model v) ∧
    (∀ (cfg : ModelConfig) (v : String), cfg.preferred_provider = "nvidia" →
      validate_model cfg v = nvidiaRewrite cfg.small_model cfg.big_model v) ∧
    (∀ (cfg : ModelConfig) (v : String),
      cfg.preferred_provider ≠ "openai" → cfg.preferred_provider ≠ "nvidia" →
      validate_model cfg v =
        (if strStarts v "anthropic/" then v else "anthropic/" ++ v)) := by
  have e : ("openai" ++ "/" : String) = "openai/" := rfl
  refine ⟨fun cfg v h => ?_, fun cfg v h => ?_, fun cfg v h1 h2 => ?_⟩
  · have hne : cfg.preferred_provider ≠ "nvidia" := by rw [h]; decide
    unfold validate_model claimRewrite
    rw [if_neg hne, if_pos h]
    simp only [e]
  · unfold validate_model
    rw [if_pos h]
    rfl
  · unfold validate_model
    rw [if_neg h2, if_neg h1]

/-- C8 witness: the three amended branches evaluated at concrete
configurations. -/
theorem c8_witness :
    validate_model ⟨"openai", "gpt-4o", "gpt-4o-mini"⟩ "claude-3-5-sonnet-20241022" =
      claimRewrite "openai" "gpt-4o-mini" "gpt-4o" "claude-3-5-sonnet-20241022" ∧
    validate_model ⟨"nvidia", "big", "small"⟩ "mymodel" =
      nvidiaRewrite "small" "big" "mymodel" ∧
    validate_model cfgAnthropic "claude-3-haiku-20240307" =
      (if strStarts "claude-3-haiku-20240307" "anthropic/" then
        "claude-3-haiku-20240307"
      else "anthropic/" ++ "claude-3-haiku-20240307") :=
  ⟨c8_amended.1 _ _ rfl, c8_amended.2.1 _ _ rfl,
   c8_amended.2.2 cfgAnthropic _ (by decide) (by decide)⟩

/-- C9: both response translators read only the first element of the
upstream choices list: extract_response_data, the full non-streaming
conversion and the per-chunk streaming step are unchanged when the
choices list is truncated to its head, and truncating every chunk leaves
the whole emitted stream unchanged. -/
theorem c9_first_choice_only :
    (∀ (rid : Option String) (c : UChoice) (cs : List UChoice)
        (us : UsageInfo),
      extract_response_data ⟨rid, c :: cs, us⟩ =
        extract_response_data ⟨rid, [c], us⟩) ∧
    (∀ (rid : Option String) (c : UChoice) (cs : List UChoice)
        (us : UsageInfo) (m : String),
      convert_openai_to_anthropic ⟨rid, c :: cs, us⟩ m =
        convert_openai_to_anthropic ⟨rid, [c], us⟩ m) ∧
    (∀ (st : StreamState) (u : Option ChunkUsage) (c : ChunkChoice)
        (cs : List ChunkChoice),
      processChunk st (.chunk u (c :: cs)) = processChunk st (.chunk u [c])) ∧
    (∀ (chunks : List Chunk) (raises : Bool),
      handle_streaming (chunks.map truncChunk) raises =
        handle_streaming chunks raises) := by
  refine ⟨fun _ _ _ _ => rfl, fun _ _ _ _ _ => rfl, fun _ _ _ _ => rfl,
    fun chunks raises => ?_⟩
  simp [handle_streaming, runChunks_trunc]

/-- C10: every response of the non-streaming translator, the degraded
error response included, has a null stop_sequence and a stop_reason that
is one of end_turn, max_tokens and tool_use; the value stop_sequence is
never produced as a stop_reason. -/
theorem c10_stop_fields :
    (∀ (r : UCompletion) (m : String),
      (convert_openai_to_anthropic r m).stop_sequence = none ∧
      (convert_openai_to_anthropic r m).stop_reason ≠ "stop_sequence" ∧
      ((convert_openai_to_anthropic r m).stop_reason = "end_turn" ∨
       (convert_openai_to_anthropic r m).stop_reason = "max_tokens" ∨
       (convert_openai_to_anthropic r m).stop_reason = "tool_use")) ∧
    (∀ (m e : String),
      (conversion_error_response m e).stop_sequence = none ∧
      (conversion_error_response m e).stop_reason = "end_turn") := by
  refine ⟨fun r m => ?_, fun m e => ⟨rfl, rfl⟩⟩
  have hsr : (convert_openai_to_anthropic r m).stop_reason =
      convert_stop_reason (extract_response_data r).finish_reason := rfl
  refine ⟨rfl, ?_, hsr ▸ convert_stop_reason_cases _⟩
  rw [hsr]
  rcases convert_stop_reason_cases (extract_response_data r).finish_reason
    with h | h | h <;> rw [h] <;> decide

/-! ## Streaming lemmas: counting -/

theorem countStart_append (a b : List SSE) (i : Nat) :
    countStart (a ++ b) i = countStart a i + countStart b i :=
  List.countP_append _ _ _

theorem countStop_append (a b : List SSE) (i : Nat) :
    countStop (a ++ b) i = countStop a i + countStop b i :=
  List.countP_append _ _ _

theorem toolStartIndices_append (a b : List SSE) :
    toolStartIndices (a ++ b) = toolStartIndices a ++ toolStartIndices b :=
  List.filterMap_append _ _ _

theorem noTerm_append {a b : List SSE}
    (ha : ∀ e ∈ a, isTerminalEv e = false)
    (hb : ∀ e ∈ b, isTerminalEv e = false) :
    ∀ e ∈ a ++ b, isTerminalEv e = false := by
  intro e he
  rcases List.mem_append.1 he with h | h
  · exact ha e h
  · exact hb e h

theorem rangeStops_succ (n : Nat) :
    rangeStops (n + 1) = rangeStops n ++ [SSE.blockStop (n + 1)] := by
  simp [rangeStops, List.range_succ]

theorem countStop_rangeStops (n i : Nat) :
    countStop (rangeStops n) i = if 1 ≤ i ∧ i ≤ n then 1 else 0 := by
  induction n with
  | zero =>
      simp [rangeStops, countStop]
      split_ifs <;> omega
  | succ n ih =>
      rw [rangeStops_succ, countStop_append, ih]
      simp [countStop, List.countP_cons, List.countP_nil, stopIndexHits]
      split_ifs <;> omega

theorem countStart_rangeStops (n i : Nat) :
    countStart (rangeStops n) i = 0 := by
  induction n with
  | zero => simp [rangeStops, countStart]
  | succ n ih =>
      rw [rangeStops_succ, countStart_append, ih]
      simp [countStart, List.countP_cons, List.countP_nil, startIndexHits]

theorem toolStartIndices_rangeStops (n : Nat) :
    toolStartIndices (rangeStops n) = [] := by
  induction n with
  | zero => simp [rangeStops, toolStartIndices]
  | succ n ih =>
      rw [rangeStops_succ, toolStartIndices_append, ih]
      simp [toolStartIndices]

theorem noTerm_rangeStops (n : Nat) :
    ∀ e ∈ rangeStops n, isTerminalEv e = false := by
  intro e he
  rcases List.mem_map.1 he with ⟨k, _, rfl⟩
  rfl

/-! ## Streaming lemmas: per-step specifications -/

theorem closeText_spec (st : StreamState) :
    (closeTextForTools st).1.tool_index = st.tool_index ∧
    (closeTextForTools st).1.last_tool_index = st.last_tool_index ∧
    (closeTextForTools st).1.has_sent_stop_reason =
      st.has_sent_stop_reason ∧
    (closeTextForTools st).1.output_tokens = st.output_tokens ∧
    (∀ i, countStart (closeTextForTools st).2 i = 0) ∧
    (∀ i, countStop (closeTextForTools st).2 (i + 1) = 0) ∧
    (countStop (closeTextForTools st).2 0 +
        (if (closeTextForTools st).1.text_block_closed then 0 else 1) =
      (if st.text_block_closed then 0 else 1)) ∧
    toolStartIndices (closeTextForTools st).2 = [] ∧
    (∀ e ∈ (closeTextForTools st).2, isTerminalEv e = false) := by
  obtain ⟨ti, lti, acc, ts, tbc, it, ot, hs⟩ := st
  rcases ti with _ | k <;> cases ts <;> cases tbc <;>
    by_cases hacc : acc = "" <;>
    simp [closeTextForTools, hacc, countStart, countStop, List.countP_cons,
      List.countP_nil, startIndexHits, stopIndexHits, isTerminalEv,
      toolStartIndices]

theorem processToolCall_spec (st : StreamState) (tc : TCDelta) :
    (processToolCall st tc).terminated = false ∧
    (processToolCall st tc).state.text_sent = st.text_sent ∧
    (processToolCall st tc).state.text_block_closed =
      st.text_block_closed ∧
    (processToolCall st tc).state.accumulated_text =
      st.accumulated_text ∧
    (processToolCall st tc).state.has_sent_stop_reason =
      st.has_sent_stop_reason ∧
    (processToolCall st tc).state.output_tokens = st.output_tokens ∧
    st.last_tool_index ≤ (processToolCall st tc).state.last_tool_index ∧
    ((st.tool_index = none ↔ st.last_tool_index = 0) →
      ((processToolCall st tc).state.tool_index = none ↔
        (processToolCall st tc).state.last_tool_index = 0)) ∧
    countStart (processToolCall st tc).events 0 = 0 ∧
    (∀ i, countStart (processToolCall st tc).events (i + 1) =
      if st.last_tool_index < i + 1 ∧
          i + 1 ≤ (processToolCall st tc).state.last_tool_index then 1
      else 0) ∧
    (∀ i, countStop (processToolCall st tc).events i = 0) ∧
    (processToolCall st tc).opens.map Prod.snd =
      List.range' (st.last_tool_index + 1)
        ((processToolCall st tc).state.last_tool_index -
          st.last_tool_index) ∧
    toolStartIndices (processToolCall st tc).events =
      List.range' (st.last_tool_index + 1)
        ((processToolCall st tc).state.last_tool_index -
          st.last_tool_index) ∧
    (∀ e ∈ (processToolCall st tc).events, isTerminalEv e = false) := by
  by_cases ho : st.tool_index = none ∨ st.tool_index ≠ some (tc.index.getD 0) <;>
    by_cases hargs : tc.arguments.getD "" = "" <;>
    simp [processToolCall, ho, hargs, countStart, countStop,
      List.countP_cons, List.countP_nil, startIndexHits, stopIndexHits,
      isTerminalEv, toolStartIndices] <;>
    (intro i; split_ifs <;> omega)

theorem range'_glue {a b c : Nat} (hab : a ≤ b) (hbc : b ≤ c) :
    List.range' (a + 1) (b - a) ++ List.range' (b + 1) (c - b) =
      List.range' (a + 1) (c - a) := by
  have h := List.range'_append (a + 1) (b - a) (c - b) 1
  rw [show a + 1 + 1 * (b - a) = b + 1 by omega,
    show c - b + (b - a) = c - a by omega] at h
  exact h

theorem StepSpec.nil (st : StreamState) :
    StepSpec st ⟨st, [], [], false⟩ := by
  refine ⟨rfl, rfl, le_refl _, fun h => h, rfl, fun i => ?_, fun i => rfl,
    by simp [countStop], by simp, by simp [toolStartIndices], by simp⟩
  simp [countStart]
  split_ifs <;> omega

theorem StepSpec.comp {st : StreamState} {r1 r2 : StepResult}
    (h1 : StepSpec st r1) (h2 : StepSpec r1.state r2) :
    StepSpec st
      ⟨r2.state, r1.events ++ r2.events, r1.opens ++ r2.opens, false⟩ := by
  obtain ⟨t1, hs1, mono1, inv1, cs01, csS1, cst1, cs0eq1, op1, tsi1, nt1⟩ := h1
  obtain ⟨t2, hs2, mono2, inv2, cs02, csS2, cst2, cs0eq2, op2, tsi2, nt2⟩ := h2
  refine ⟨rfl, hs2.trans hs1, mono1.trans mono2, fun h => inv2 (inv1 h),
    ?_, fun i => ?_, fun i => ?_, ?_, ?_, ?_, noTerm_append nt1 nt2⟩
  · dsimp only
    rw [countStart_append, cs01, cs02]
  · dsimp only
    rw [countStart_append, csS1 i, csS2 i]
    split_ifs <;> omega
  · dsimp only
    rw [countStop_append, cst1 i, cst2 i]
  · dsimp only
    rw [countStop_append]
    omega
  · dsimp only
    rw [List.map_append, op1, op2]
    exact range'_glue mono1 mono2
  · dsimp only
    rw [toolStartIndices_append, tsi1, tsi2]
    exact range'_glue mono1 mono2

theorem StepSpec.compTerm {st : StreamState} {r1 r2 : StepResult}
    (h1 : StepSpec st r1) (h2 : TermSpec r1.state r2) :
    TermSpec st
      ⟨r2.state, r1.events ++ r2.events, r1.opens ++ r2.opens, true⟩ := by
  obtain ⟨t1, hs1, mono1, inv1, cs01, csS1, cst1, cs0eq1, op1, tsi1, nt1⟩ := h1
  obtain ⟨t2, mono2, cs02, csS2, cstT2, cs0eq2, op2, tsi2, pre2⟩ := h2
  refine ⟨rfl, mono1.trans mono2, ?_, fun i => ?_, fun h i => ?_, ?_, ?_, ?_,
    ?_⟩
  · dsimp only
    rw [countStart_append, cs01, cs02]
  · dsimp only
    rw [countStart_append, csS1 i, csS2 i]
    split_ifs <;> omega
  · dsimp only
    rw [countStop_append, cst1 i, cstT2 (inv1 h) i]
    simp
  · dsimp only
    rw [countStop_append, cs0eq2]
    omega
  · dsimp only
    rw [List.map_append, op1, op2]
    exact range'_glue mono1 mono2
  · dsimp only
    rw [toolStartIndices_append, tsi1, tsi2]
    exact range'_glue mono1 mono2
  · obtain ⟨pre, rr, tt, hev, hpre⟩ := pre2
    exact ⟨r1.events ++ pre, rr, tt, by simp [hev],
      noTerm_append nt1 hpre⟩

theorem countStart_neutral {evs : List SSE}
    (h : ∀ e ∈ evs, neutralEv e = true) (i : Nat) :
    countStart evs i = 0 := by
  rw [countStart, List.countP_eq_zero]
  intro e he
  have := h e he
  cases e <;> simp_all [neutralEv, startIndexHits]

theorem countStop_neutral {evs : List SSE}
    (h : ∀ e ∈ evs, neutralEv e = true) (i : Nat) :
    countStop evs i = 0 := by
  rw [countStop, List.countP_eq_zero]
  intro e he
  have := h e he
  cases e <;> simp_all [neutralEv, stopIndexHits]

theorem tsi_neutral {evs : List SSE}
    (h : ∀ e ∈ evs, neutralEv e = true) :
    toolStartIndices evs = [] := by
  rw [toolStartIndices, List.filterMap_eq_nil_iff]
  intro e he
  have := h e he
  cases e <;> simp_all [neutralEv]

theorem noTerm_neutral {evs : List SSE}
    (h : ∀ e ∈ evs, neutralEv e = true) :
    ∀ e ∈ evs, isTerminalEv e = false := by
  intro e he
  have := h e he
  cases e <;> simp_all [neutralEv, isTerminalEv]

/-- A processing phase that only changes loop-neutral state fields and
emits only neutral events satisfies StepSpec. -/
theorem StepSpec.neutral {st st1 : StreamState} {evs : List SSE}
    (hn : ∀ e ∈ evs, neutralEv e = true)
    (hti : st1.tool_index = st.tool_index)
    (hlast : st1.last_tool_index = st.last_tool_index)
    (htbc : st1.text_block_closed = st.text_block_closed)
    (hhs : st1.has_sent_stop_reason = st.has_sent_stop_reason) :
    StepSpec st ⟨st1, evs, [], false⟩ := by
  refine ⟨rfl, hhs, le_of_eq hlast.symm, fun h => by rw [hti, hlast]; exact h,
    countStart_neutral hn 0, fun i => ?_, fun i => countStop_neutral hn _,
    ?_, ?_, ?_, noTerm_neutral hn⟩
  · rw [countStart_neutral hn]
    dsimp only
    rw [hlast]
    split_ifs <;> omega
  · dsimp only
    rw [countStop_neutral hn, htbc]
    exact Nat.zero_add _
  · dsimp only
    rw [hlast]
    simp
  · dsimp only
    rw [tsi_neutral hn, hlast]
    simp

theorem stepSpec_closeText (st : StreamState) :
    StepSpec st
      ⟨(closeTextForTools st).1, (closeTextForTools st).2, [], false⟩ := by
  obtain ⟨h1, h2, h3, h4, h5, h6, h7, h8, h9⟩ := closeText_spec st
  refine ⟨rfl, h3, le_of_eq h2.symm, fun h => by rw [h1, h2]; exact h,
    h5 0, fun i => ?_, fun i => h6 i, h7, ?_, ?_, h9⟩
  · dsimp only
    rw [h5 (i + 1), h2]
    split_ifs <;> omega
  · dsimp only
    rw [h2]
    simp
  · dsimp only
    rw [h8, h2]
    simp

theorem stepSpec_processToolCall (st : StreamState) (tc : TCDelta) :
    StepSpec st (processToolCall st tc) := by
  obtain ⟨t1, h2, h3, h4, h5, h6, mono, inv, cs0, csS, cst, op, tsi, nt⟩ :=
    processToolCall_spec st tc
  refine ⟨t1, h5, mono, inv, cs0, csS, fun i => cst (i + 1), ?_, op, tsi,
    nt⟩
  rw [cst 0, h3]
  exact Nat.zero_add _

theorem stepSpec_processToolCalls (tcs : List TCDelta) (st : StreamState) :
    StepSpec st (processToolCalls st tcs) := by
  induction tcs generalizing st with
  | nil => exact StepSpec.nil st
  | cons tc rest ih =>
      exact StepSpec.comp (stepSpec_processToolCall st tc)
        (ih (processToolCall st tc).state)

theorem stepSpec_textStep (st : StreamState) (content : Option String) :
    StepSpec st ⟨(textStep st content).1, (textStep st content).2, [],
      false⟩ := by
  rcases content with _ | t
  · exact StepSpec.nil st
  · by_cases ht : t = ""
    · simp only [textStep, ht, if_pos rfl]
      exact StepSpec.nil st
    · by_cases hc : ({ st with
          accumulated_text := st.accumulated_text ++ t } :
            StreamState).tool_index = none ∧
          ({ st with accumulated_text := st.accumulated_text ++ t } :
            StreamState).text_block_closed = false
      · simp only [textStep, ht, if_neg, if_pos hc]
        exact StepSpec.neutral (by simp [neutralEv]) rfl rfl rfl rfl
      · simp only [textStep, ht, if_neg, if_neg hc]
        exact StepSpec.neutral (by simp) rfl rfl rfl rfl

theorem stepSpec_toolStep (st : StreamState)
    (tool_calls : Option (List TCDelta)) :
    StepSpec st (toolStep st tool_calls) := by
  rcases tool_calls with _ | tcs
  · exact StepSpec.nil st
  · by_cases he : tcs.isEmpty
    · simp only [toolStep, he, if_pos rfl]
      exact StepSpec.nil st
    · simp only [toolStep, he, Bool.false_eq_true, if_neg,
        Bool.not_eq_true]
      exact StepSpec.comp (stepSpec_closeText st)
        (stepSpec_processToolCalls tcs (closeTextForTools st).1)

theorem countStart_terminal3 (rr : String) (tt : Nat) (i : Nat) :
    countStart [SSE.messageDelta rr tt, SSE.messageStop, SSE.done] i = 0 := by
  simp [countStart, List.countP_cons, startIndexHits]

theorem countStop_terminal3 (rr : String) (tt : Nat) (i : Nat) :
    countStop [SSE.messageDelta rr tt, SSE.messageStop, SSE.done] i = 0 := by
  simp [countStop, List.countP_cons, stopIndexHits]

theorem tsi_terminal3 (rr : String) (tt : Nat) :
    toolStartIndices [SSE.messageDelta rr tt, SSE.messageStop, SSE.done] =
      [] := by
  simp [toolStartIndices]

theorem closeSeg_spec (st : StreamState) (extra : List SSE)
    (hextra : ∀ e ∈ extra, neutralEv e = true) :
    (∀ i, countStart (closeSeg st extra) i = 0) ∧
    ((st.tool_index = none ↔ st.last_tool_index = 0) →
      ∀ i, countStop (closeSeg st extra) (i + 1) =
        if i + 1 ≤ st.last_tool_index then 1 else 0) ∧
    countStop (closeSeg st extra) 0 =
      (if st.text_block_closed then 0 else 1) ∧
    toolStartIndices (closeSeg st extra) = [] ∧
    (∀ e ∈ closeSeg st extra, isTerminalEv e = false) := by
  have hsA : ∀ i, countStart
      (if st.tool_index.isSome then rangeStops st.last_tool_index
       else []) i = 0 := by
    intro i
    split_ifs
    · exact countStart_rangeStops _ i
    · simp [countStart]
  have hsB : ∀ i, countStart
      (if !st.text_block_closed then extra ++ [SSE.blockStop 0]
       else []) i = 0 := by
    intro i
    split_ifs
    · rw [countStart_append, countStart_neutral hextra]
      simp [countStart, List.countP_cons, startIndexHits]
    · simp [countStart]
  have hpB : ∀ i, countStop
      (if !st.text_block_closed then extra ++ [SSE.blockStop 0]
       else []) (i + 1) = 0 := by
    intro i
    split_ifs
    · rw [countStop_append, countStop_neutral hextra]
      simp [countStop, List.countP_cons, stopIndexHits]
    · simp [countStop]
  have hB0 : countStop
      (if !st.text_block_closed then extra ++ [SSE.blockStop 0]
       else []) 0 = (if st.text_block_closed then 0 else 1) := by
    cases hc : st.text_block_closed
    · simp only [hc, Bool.not_false, if_pos]
      rw [countStop_append, countStop_neutral hextra]
      simp [countStop, List.countP_cons, stopIndexHits]
    · simp [hc, countStop]
  refine ⟨fun i => ?_, fun h i => ?_, ?_, ?_, ?_⟩
  · rw [closeSeg, countStart_append, hsA, hsB]
  · rw [closeSeg, countStop_append, hpB]
    rcases h2 : st.tool_index with _ | k
    · have h0 : st.last_tool_index = 0 := h.mp h2
      have hneg : ¬ (i + 1 ≤ st.last_tool_index) := by omega
      rw [if_neg hneg]
      simp [countStop]
    · have hT : (some k : Option Nat).isSome = true := rfl
      rw [if_pos hT, countStop_rangeStops]
      split_ifs <;> omega
  · rw [closeSeg, countStop_append, hB0]
    have hA0 : countStop
        (if st.tool_index.isSome then rangeStops st.last_tool_index
         else []) 0 = 0 := by
      split_ifs
      · rw [countStop_rangeStops]
        simp
      · simp [countStop]
    rw [hA0]
    exact Nat.zero_add _
  · rw [closeSeg, toolStartIndices_append]
    have h1 : toolStartIndices
        (if st.tool_index.isSome then rangeStops st.last_tool_index
         else []) = [] := by
      split_ifs
      · exact toolStartIndices_rangeStops _
      · rfl
    have h2 : toolStartIndices
        (if !st.text_block_closed then extra ++ [SSE.blockStop 0]
         else []) = [] := by
      split_ifs
      · rw [toolStartIndices_append, tsi_neutral hextra]
        rfl
      · rfl
    rw [h1, h2]
    rfl
  · refine noTerm_append ?_ ?_
    · split_ifs
      · exact noTerm_rangeStops _
      · intro e he; simp at he
    · split_ifs
      · exact noTerm_append (noTerm_neutral hextra)
          (by intro e he; simp at he; rw [he]; rfl)
      · intro e he; simp at he

theorem termSpec_finishStep (st : StreamState) (f : String)
    (hf : f ≠ "") (hs : st.has_sent_stop_reason = false) :
    TermSpec st (finishStep st (some f)) := by
  rw [finishStep, if_pos (And.intro hf hs)]
  have hextra : ∀ e ∈
      (if decide (st.accumulated_text ≠ "") && !st.text_sent then
        [SSE.textDelta st.accumulated_text]
      else []), neutralEv e = true := by
    split_ifs
    · intro e he; simp at he; rw [he]; rfl
    · intro e he; simp at he
  obtain ⟨hcs, hcstS, hcst0, htsi, hnt⟩ := closeSeg_spec st _ hextra
  refine ⟨rfl, le_refl _, ?_, fun i => ?_, fun h i => ?_, ?_, ?_, ?_, ?_⟩
  · dsimp only [finishEvents]
    rw [countStart_append, hcs, countStart_terminal3]
  · dsimp only [finishEvents]
    rw [countStart_append, hcs, countStart_terminal3]
    split_ifs <;> omega
  · dsimp only [finishEvents]
    rw [countStop_append, hcstS h i, countStop_terminal3]
    omega
  · dsimp only [finishEvents]
    rw [countStop_append, hcst0, countStop_terminal3]
    exact Nat.add_zero _
  · simp
  · dsimp only [finishEvents]
    rw [toolStartIndices_append, htsi, tsi_terminal3]
    simp
  · exact ⟨closeSeg st _, _, _, rfl, hnt⟩

theorem stepOrTerm_processChoice (st : StreamState) (c : ChunkChoice) :
    StepSpec st (processChoice st c) ∨ TermSpec st (processChoice st c) := by
  have hText := stepSpec_textStep st c.delta.content
  have hTool := stepSpec_toolStep (textStep st c.delta.content).1
    c.delta.tool_calls
  have h1 := StepSpec.comp hText hTool
  have e1 : processChoice st c =
      ⟨(finishStep (toolStep (textStep st c.delta.content).1
          c.delta.tool_calls).state c.finish_reason).state,
       (textStep st c.delta.content).2 ++
         (toolStep (textStep st c.delta.content).1
           c.delta.tool_calls).events ++
         (finishStep (toolStep (textStep st c.delta.content).1
           c.delta.tool_calls).state c.finish_reason).events,
       (toolStep (textStep st c.delta.content).1
         c.delta.tool_calls).opens ++
         (finishStep (toolStep (textStep st c.delta.content).1
           c.delta.tool_calls).state c.finish_reason).opens,
       (finishStep (toolStep (textStep st c.delta.content).1
         c.delta.tool_calls).state c.finish_reason).terminated⟩ := rfl
  rcases hfr : c.finish_reason with _ | f
  · left
    have h2 := StepSpec.comp h1
      (StepSpec.nil (toolStep (textStep st c.delta.content).1
        c.delta.tool_calls).state)
    rw [e1, hfr]
    exact h2
  · by_cases hcond : f ≠ "" ∧ (toolStep (textStep st c.delta.content).1
        c.delta.tool_calls).state.has_sent_stop_reason = false
    · right
      have hTerm := termSpec_finishStep _ f hcond.1 hcond.2
      have h2 := StepSpec.compTerm h1 hTerm
      have hrC : finishStep (toolStep (textStep st c.delta.content).1
          c.delta.tool_calls).state (some f) =
          ⟨{ (toolStep (textStep st c.delta.content).1
              c.delta.tool_calls).state with
             has_sent_stop_reason := true },
           finishEvents (toolStep (textStep st c.delta.content).1
             c.delta.tool_calls).state f, [], true⟩ := by
        rw [finishStep, if_pos hcond]
      rw [hrC] at h2
      rw [e1, hfr, hrC]
      exact h2
    · left
      have h2 := StepSpec.comp h1
        (StepSpec.nil (toolStep (textStep st c.delta.content).1
          c.delta.tool_calls).state)
      have hrC : finishStep (toolStep (textStep st c.delta.content).1
          c.delta.tool_calls).state (some f) =
          ⟨(toolStep (textStep st c.delta.content).1
            c.delta.tool_calls).state, [], [], false⟩ := by
        rw [finishStep, if_neg hcond]
      rw [e1, hfr, hrC]
      exact h2

theorem stepSpec_preUsage {st : StreamState} {u : Option ChunkUsage}
    {r : StepResult} (h : StepSpec (updateUsage st u) r) : StepSpec st r := by
  rcases u with _ | u
  · exact h
  · exact h

theorem termSpec_preUsage {st : StreamState} {u : Option ChunkUsage}
    {r : StepResult} (h : TermSpec (updateUsage st u) r) : TermSpec st r := by
  rcases u with _ | u
  · exact h
  · exact h

theorem stepOrTerm_processChunk (st : StreamState) (c : Chunk) :
    StepSpec st (processChunk st c) ∨ TermSpec st (processChunk st c) := by
  rcases c with ⟨u, choices⟩ | u
  · rcases choices with _ | ⟨c0, rest⟩
    · left
      exact stepSpec_preUsage (StepSpec.nil (updateUsage st u))
    · rcases stepOrTerm_processChoice (updateUsage st u) c0 with h | h
      · exact Or.inl (stepSpec_preUsage h)
      · exact Or.inr (termSpec_preUsage h)
  · left
    exact stepSpec_preUsage (StepSpec.nil (updateUsage st u))

theorem runChunks_spec (chunks : List Chunk) (st : StreamState) :
    StepSpec st (runChunks st chunks) ∨
      TermSpec st (runChunks st chunks) := by
  induction chunks generalizing st with
  | nil => left; exact StepSpec.nil st
  | cons c cs ih =>
      rcases stepOrTerm_processChunk st c with h1 | h1
      · have ht : (processChunk st c).terminated = false := h1.1
        rcases ih (processChunk st c).state with h2 | h2
        · left
          have h := StepSpec.comp h1 h2
          simp only [runChunks, ht, Bool.false_eq_true, if_false]
          rw [h2.1]
          exact h
        · right
          have h := StepSpec.compTerm h1 h2
          simp only [runChunks, ht, Bool.false_eq_true, if_false]
          rw [h2.1]
          exact h
      · right
        simp only [runChunks, h1.1, if_true]
        rw [← h1.1]
        exact h1

/-! ## Final assembly lemmas -/

theorem countStart_initEvents_zero : countStart initEvents 0 = 1 := by
  simp [initEvents, countStart, List.countP_cons, List.countP_nil,
    startIndexHits]

theorem countStart_initEvents_succ (j : Nat) :
    countStart initEvents (j + 1) = 0 := by
  simp [initEvents, countStart, List.countP_cons, List.countP_nil,
    startIndexHits]

theorem countStop_initEvents (i : Nat) : countStop initEvents i = 0 := by
  simp [countStop, initEvents, List.countP_cons, List.countP_nil,
    stopIndexHits]

theorem noTerm_initEvents : ∀ e ∈ initEvents, isTerminalEv e = false := by
  decide

theorem tsi_initEvents : toolStartIndices initEvents = [] := rfl

theorem endPath_spec (st : StreamState)
    (hinv : st.tool_index = none ↔ st.last_tool_index = 0) :
    (∀ i, countStart (endPathEvents st) i = 0) ∧
    (∀ i, countStop (endPathEvents st) (i + 1) =
      if i + 1 ≤ st.last_tool_index then 1 else 0) ∧
    countStop (endPathEvents st) 0 =
      (if st.text_block_closed then 0 else 1) ∧
    toolStartIndices (endPathEvents st) = [] ∧
    (∀ e ∈ closeSeg st [], isTerminalEv e = false) := by
  obtain ⟨hcs, hcstS, hcst0, htsi, hnt⟩ :=
    closeSeg_spec st [] (by intro e he; simp at he)
  refine ⟨fun i => ?_, fun i => ?_, ?_, ?_, hnt⟩
  · rw [endPathEvents, countStart_append, hcs, countStart_terminal3]
  · rw [endPathEvents, countStop_append, hcstS hinv i, countStop_terminal3]
    exact Nat.add_zero _
  · rw [endPathEvents, countStop_append, hcst0, countStop_terminal3]
    exact Nat.add_zero _
  · rw [endPathEvents, toolStartIndices_append, htsi, tsi_terminal3]
    rfl

theorem streamBalance (chunks : List Chunk) (i : Nat) :
    countStop (handle_streaming chunks false) i =
      if 0 < countStart (handle_streaming chunks false) i then 1 else 0 := by
  have hinv0 : initState.tool_index = none ↔ initState.last_tool_index = 0 :=
    ⟨fun _ => rfl, fun _ => rfl⟩
  have e0 : initState.last_tool_index = 0 := rfl
  have eowed : (if initState.text_block_closed = true then 0 else 1) = 1 :=
    rfl
  rcases runChunks_spec chunks initState with h | h
  · obtain ⟨ht, hhs, hmono, hinvf, hcs0, hcsS, hcstS, hcst0, hop, htsi2,
      hnt⟩ := h
    rw [e0] at hcsS
    rw [eowed] at hcst0
    have hhs0 : (runChunks initState chunks).state.has_sent_stop_reason =
        false := by
      rw [hhs]
      rfl
    have hh : handle_streaming chunks false =
        initEvents ++ (runChunks initState chunks).events ++
          endPathEvents (runChunks initState chunks).state := by
      simp only [handle_streaming, ht, hhs0, Bool.false_eq_true, if_false]
    obtain ⟨ecs, ecstS, ecst0, etsi, _⟩ :=
      endPath_spec (runChunks initState chunks).state (hinvf hinv0)
    rw [hh, countStart_append, countStart_append, countStop_append,
      countStop_append]
    rcases i with _ | j
    · rw [countStart_initEvents_zero, countStop_initEvents, hcs0, ecs 0,
        ecst0]
      norm_num
      omega
    · rw [countStart_initEvents_succ, countStop_initEvents, hcsS j,
        ecstS j, hcstS j, ecs (j + 1)]
      split_ifs <;> omega
  · obtain ⟨ht, hmono, hcs0, hcsS, hcstS, hcst0, hop, htsi2, hpre⟩ := h
    rw [e0] at hcsS
    rw [eowed] at hcst0
    have hh : handle_streaming chunks false =
        initEvents ++ (runChunks initState chunks).events := by
      simp only [handle_streaming, ht, if_true, List.append_nil]
    rw [hh, countStart_append, countStop_append]
    rcases i with _ | j
    · rw [countStart_initEvents_zero, countStop_initEvents, hcs0, hcst0]
      norm_num
    · rw [countStart_initEvents_succ, countStop_initEvents, hcsS j,
        hcstS hinv0 j]
      split_ifs <;> omega

theorem processChunk_noFinish (st : StreamState) (c : Chunk)
    (h : chunkFinishTruthy c = false) :
    (processChunk st c).terminated = false := by
  rcases c with ⟨u, choices⟩ | u
  · rcases choices with _ | ⟨c0, rest⟩
    · rfl
    · have e : (processChunk st (Chunk.chunk u (c0 :: rest))).terminated =
          (finishStep (toolStep (textStep (updateUsage st u)
            c0.delta.content).1 c0.delta.tool_calls).state
            c0.finish_reason).terminated := rfl
      rw [e]
      rcases hf : c0.finish_reason with _ | f
      · rfl
      · simp only [chunkFinishTruthy, hf] at h
        have hf0 : f = "" := by simpa using h
        rw [finishStep, if_neg (fun hc => hc.1 hf0)]
  · rfl

theorem runChunks_noFinish (chunks : List Chunk) (st : StreamState)
    (h : ∀ c ∈ chunks, chunkFinishTruthy c = false) :
    (runChunks st chunks).terminated = false := by
  induction chunks generalizing st with
  | nil => rfl
  | cons c cs ih =>
      have h1 := processChunk_noFinish st c (h c (by simp))
      simp only [runChunks, h1, Bool.false_eq_true, if_false]
      exact ih (processChunk st c).state (fun x hx => h x (List.mem_cons_of_mem _ hx))

/-- C1: for every upstream chunk sequence that ends with a chunk carrying
a non-null finish_reason (and is consumed without the generator raising),
every content-block index that receives a content_block_start receives
exactly one matching content_block_stop, and no index without a start
receives a stop. -/
theorem c1_block_balance (chunks : List Chunk)
    (_hend : endsWithFinish chunks = true) (i : Nat) :
    countStop (handle_streaming chunks false) i =
      if 0 < countStart (handle_streaming chunks false) i then 1 else 0 :=
  streamBalance chunks i

/-- C1 witness: the block balance evaluated on a concrete stream that
opens a text and a tool block and ends with finish_reason tool_calls. -/
theorem c1_witness :
    endsWithFinish c1demo = true ∧
    countStop (handle_streaming c1demo false) 0 =
      (if 0 < countStart (handle_streaming c1demo false) 0 then 1
       else 0) ∧
    countStop (handle_streaming c1demo false) 1 =
      (if 0 < countStart (handle_streaming c1demo false) 1 then 1
       else 0) :=
  ⟨by decide, c1_block_balance c1demo (by decide) 0,
   c1_block_balance c1demo (by decide) 1⟩

/-- C2: for every upstream chunk sequence, whether or not it ends with a
finish_reason and including the failure path, the emitted stream is a
prefix free of terminal events followed by exactly one message_delta
(whose stop_reason is a string, hence non-null), exactly one
message_stop and exactly one done sentinel, in that order, with nothing
after the sentinel. -/
theorem c2_terminal_uniqueness (chunks : List Chunk) (raises : Bool) :
    ∃ pre rr tt, handle_streaming chunks raises =
      pre ++ [SSE.messageDelta rr tt, SSE.messageStop, SSE.done] ∧
      ∀ e ∈ pre, isTerminalEv e = false := by
  rcases runChunks_spec chunks initState with h | h
  · obtain ⟨ht, hhs, _, hinvf, _, _, _, _, _, _, hnt⟩ := h
    have hhs0 : (runChunks initState chunks).state.has_sent_stop_reason =
        false := by
      rw [hhs]
      rfl
    cases raises
    · have hh : handle_streaming chunks false =
          initEvents ++ (runChunks initState chunks).events ++
            endPathEvents (runChunks initState chunks).state := by
        simp only [handle_streaming, ht, hhs0, Bool.false_eq_true,
          if_false]
      have hclose := (closeSeg_spec (runChunks initState chunks).state []
        (by intro e he; simp at he)).2.2.2.2
      refine ⟨(initEvents ++ (runChunks initState chunks).events) ++
        closeSeg (runChunks initState chunks).state [], "end_turn",
        (runChunks initState chunks).state.output_tokens, ?_, ?_⟩
      · rw [hh, endPathEvents, ← List.append_assoc]
      · exact noTerm_append (noTerm_append noTerm_initEvents hnt) hclose
    · have hh : handle_streaming chunks true =
          initEvents ++ (runChunks initState chunks).events ++
            errorEvents := by
        simp only [handle_streaming, ht, Bool.false_eq_true, if_false,
          if_true]
      exact ⟨initEvents ++ (runChunks initState chunks).events, "error",
        0, hh, noTerm_append noTerm_initEvents hnt⟩
  · obtain ⟨ht, _, _, _, _, _, _, _, hpre⟩ := h
    obtain ⟨pre, rr, tt, hev, hp⟩ := hpre
    have hh : handle_streaming chunks raises =
        initEvents ++ (runChunks initState chunks).events := by
      simp only [handle_streaming, ht, if_true, List.append_nil]
    exact ⟨initEvents ++ pre, rr, tt,
      by rw [hh, hev, ← List.append_assoc],
      noTerm_append noTerm_initEvents hp⟩

/-- C5 counterexample: when the upstream tool_call indices run 0, 1 and
again 0, the mapping from upstream index to Anthropic block index is not
stable: upstream index 0 is mapped first to block 1 and later to a fresh
block 3. -/
theorem c5_counterexample :
    ¬ (∀ p ∈ streamToolOpens c5chunks, ∀ q ∈ streamToolOpens c5chunks,
        p.1 = q.1 → p.2 = q.2) := by
  decide

/-- C5 (amended): tool_use content blocks are opened with Anthropic
block indices that increase by exactly one starting at 1 (the emitted
tool content_block_start indices are 1, 2, ..., n), and these indices
are exactly the ones recorded in the upstream-to-Anthropic open log; a
fresh block (and fresh index) is allocated whenever the upstream index
differs from the immediately preceding one, so the mapping is stable
only for consecutive runs of one upstream index, not for the whole
stream. -/
theorem c5_amended (chunks : List Chunk) (raises : Bool) :
    toolStartIndices (handle_streaming chunks raises) =
      List.range' 1
        (toolStartIndices (handle_streaming chunks raises)).length ∧
    (streamToolOpens chunks).map Prod.snd =
      toolStartIndices (handle_streaming chunks raises) := by
  have e0 : initState.last_tool_index = 0 := rfl
  have hkey : toolStartIndices (handle_streaming chunks raises) =
      List.range' 1 (runChunks initState chunks).state.last_tool_index ∧
      (streamToolOpens chunks).map Prod.snd =
        List.range' 1
          (runChunks initState chunks).state.last_tool_index := by
    have hsplit : handle_streaming chunks raises =
        initEvents ++ (runChunks initState chunks).events ++
          (if (runChunks initState chunks).terminated then []
           else if raises then errorEvents
           else if (runChunks initState chunks).state.has_sent_stop_reason
             then []
           else endPathEvents (runChunks initState chunks).state) := rfl
    have hsuff : toolStartIndices
        (if (runChunks initState chunks).terminated then []
         else if raises then errorEvents
         else if (runChunks initState chunks).state.has_sent_stop_reason
           then []
         else endPathEvents (runChunks initState chunks).state) = [] := by
      split_ifs
      · rfl
      · rfl
      · rfl
      · rw [endPathEvents, toolStartIndices_append,
          (closeSeg_spec _ [] (by intro e he; simp at he)).2.2.2.1,
          tsi_terminal3]
        rfl
    have hboth : (runChunks initState chunks).opens.map Prod.snd =
        List.range' 1
          (runChunks initState chunks).state.last_tool_index ∧
        toolStartIndices (runChunks initState chunks).events =
        List.range' 1
          (runChunks initState chunks).state.last_tool_index := by
      rcases runChunks_spec chunks initState with h | h
      · obtain ⟨_, _, _, _, _, _, _, _, hop, htsi2, _⟩ := h
        rw [e0] at hop htsi2
        simpa using ⟨hop, htsi2⟩
      · obtain ⟨_, _, _, _, _, _, hop, htsi2, _⟩ := h
        rw [e0] at hop htsi2
        simpa using ⟨hop, htsi2⟩
    refine ⟨?_, hboth.1⟩
    rw [hsplit, toolStartIndices_append, toolStartIndices_append,
      tsi_initEvents, hboth.2, hsuff, List.append_nil, List.nil_append]
  refine ⟨?_, by rw [hkey.2, hkey.1]⟩
  rw [hkey.1]
  congr 1
  rw [List.length_range']

/-- C7 counterexample: a per-chunk translation failure (a malformed
chunk) does not produce the error terminal: the stream ends with
stop_reason end_turn, not error. -/
theorem c7_counterexample :
    SSE.messageDelta "error" 0 ∉
      handle_streaming [Chunk.malformed none] false ∧
    SSE.messageDelta "end_turn" 0 ∈
      handle_streaming [Chunk.malformed none] false := by
  decide

/-- C7 (amended): when the upstream generator raises and no consumed
chunk carried a truthy finish_reason, the translator emits the events
seen so far followed by message_delta with stop_reason error and
output_tokens 0, message_stop, and the done sentinel, without
re-raising; a per-chunk translation failure (malformed chunk) is only
logged and skipped: the chunk contributes no events and only the usage
update, and the stream then terminates through the normal paths. -/
theorem c7_amended :
    (∀ chunks : List Chunk,
      (∀ c ∈ chunks, chunkFinishTruthy c = false) →
      ∃ pre, handle_streaming chunks true = pre ++ errorEvents ∧
        ∀ e ∈ pre, isTerminalEv e = false) ∧
    (∀ (st : StreamState) (u : Option ChunkUsage),
      processChunk st (Chunk.malformed u) =
        ⟨updateUsage st u, [], [], false⟩) := by
  refine ⟨fun chunks hnof => ?_, fun st u => rfl⟩
  have ht := runChunks_noFinish chunks initState hnof
  have hh : handle_streaming chunks true =
      initEvents ++ (runChunks initState chunks).events ++ errorEvents := by
    simp only [handle_streaming, ht, Bool.false_eq_true, if_false,
      if_true]
  rcases runChunks_spec chunks initState with h | h
  · obtain ⟨_, _, _, _, _, _, _, _, _, _, hnt⟩ := h
    exact ⟨initEvents ++ (runChunks initState chunks).events, hh,
      noTerm_append noTerm_initEvents hnt⟩
  · rw [h.1] at ht
    simp at ht

/-- C7 witness: the amended claim evaluated on a stream consisting of
one malformed chunk followed by an upstream exception. -/
theorem c7_witness :
    ∃ pre, handle_streaming [Chunk.malformed none] true =
      pre ++ errorEvents ∧ ∀ e ∈ pre, isTerminalEv e = false :=
  c7_amended.1 [Chunk.malformed none] (by decide)
